import Mathlib

namespace MNN

/-!
Formal model of the tiling, dataset-splitting, label-checking and tile-patching
logic of the m.neural_network GRASS GIS addon collection.

The Python sources are embedded shallowly: numeric expressions over Python
floats/ints are modelled over `ℚ`/`ℤ`/`ℕ`, Python's `round` (round half to
even) is modelled by `pyRound`, fallible code returns `Except`, and the
externally executed GRASS commands of the vectorize pipeline are modelled as a
trace of commands.
-/

/-- Python's built-in `round` on exact values: round half to even. -/
def pyRound (x : ℚ) : ℤ :=
  let f := ⌊x⌋
  let r := x - (f : ℚ)
  if r < 1/2 then f
  else if 1/2 < r then f + 1
  else if f % 2 = 0 then f else f + 1

/-! ## Tile grid generation

From `m.neural_network.preparedata_part1.py` (main, the `# start values` and
`# loop over tiles` blocks) and identically `m.neural_network.preparedata.py`:
`num_tiles_row = round(reg["rows"] / (tile_size - tile_overlap) + 0.5)`, then a
row-major double loop emitting one polygon per tile, advancing `west` and
`north` by `tile_size_map_units - tile_overlap_map_units`. -/

/-- Per-dimension tile count: `round(cells / (tile_size - tile_overlap) + 0.5)`
with Python division and Python `round`. -/
def num_tiles_dim (cells ts ov : ℕ) : ℤ :=
  pyRound ((cells : ℚ) / ((ts : ℚ) - (ov : ℚ)) + 1/2)

/-- Bounds of one tile polygon of the tile index. -/
structure TileBounds where
  north : ℚ
  south : ℚ
  east : ℚ
  west : ℚ
  deriving Repr, DecidableEq

/-- Inner loop over `col in range(num_tiles_col)`: bounds of the tiles of one
row, `west` advancing by the step after each tile. -/
def tilesInRow : ℕ → ℚ → ℚ → ℚ → ℚ → List TileBounds
  | 0, _, _, _, _ => []
  | n + 1, west, north, size, step =>
      { north := north, south := north - size, east := west + size, west := west } ::
        tilesInRow n (west + step) north size step

/-- Outer loop over `row in range(num_tiles_row)`: `west` restarts at the
region border for each row, `north` advances by the step after each row. -/
def tileRows : ℕ → ℕ → ℚ → ℚ → ℚ → ℚ → List TileBounds
  | 0, _, _, _, _, _ => []
  | r + 1, ncols, north, west0, size, step =>
      tilesInRow ncols west0 north size step ++
        tileRows r ncols (north - step) west0 size step

/-- The grid stage of `main`: Python raises `ZeroDivisionError` when
`tile_size == tile_overlap` (the only way this stage can fail; the modules
perform no explicit validation of the overlap), otherwise the tile loop runs
`num_tiles_row * num_tiles_col` times (`range` of a negative count is empty,
modelled by `Int.toNat`). -/
def computeGrid (rows cols ts ov : ℕ) (regN regW res : ℚ) :
    Except String (List TileBounds) :=
  if ts = ov then .error "ZeroDivisionError: division by zero"
  else
    .ok (tileRows (num_tiles_dim rows ts ov).toNat (num_tiles_dim cols ts ov).toNat
      regN regW ((ts : ℚ) * res) ((ts : ℚ) * res - (ov : ℚ) * res))

/-! ## Train/apply split

`m.neural_network.preparedata_part1.py`, block `# random split into train and
apply data tiles`: `num_tr_tiles = round(train_percentage / 100.0 *
num_tiles_total)`; when fewer eligible tiles exist, the count is clamped to
the eligible count and a warning reports the recomputed percentage
`round(num_tr_tiles / num_tiles_total * 100)`.  The older
`m.neural_network.preparedata.py` instead computes `num_tr_tiles =
round(train_percentage / 100.0 * len(possible_tr_data))` with no clamping and
no warning. -/

/-- The part1 split.  `shuffled` is `possible_tr_data` after `random.shuffle`;
the result is `tr_tiles` together with the warning percentage (if any). -/
def split_part1 (p total : ℕ) (shuffled : List ℕ) : List ℕ × Option ℤ :=
  if (shuffled.length : ℤ) < pyRound ((p : ℚ) / 100 * (total : ℚ)) then
    (shuffled.take shuffled.length,
      some (pyRound ((shuffled.length : ℚ) / (total : ℚ) * 100)))
  else
    (shuffled.take (pyRound ((p : ℚ) / 100 * (total : ℚ))).toNat, none)

/-- The preparedata split: rounding base is the eligible count. -/
def split_prep (p : ℕ) (shuffled : List ℕ) : List ℕ :=
  shuffled.take (pyRound ((p : ℚ) / 100 * (shuffled.length : ℚ))).toNat

/-! ## Tile index pruning

`m.neural_network.preparedata.py`, blocks reading the `worker_nullcells`
outputs and `# remove tiles without data`: each tile gets a null-cell count;
positions with `null_cells == tile_size * tile_size` are collected in
`tiles_wo_data`, which is reversed and then deleted index-by-index from the
geojson feature list before the tile index is exported. -/

/-- The loop over the finished null-cell workers with its running counter
`num`: positions whose null-cell count satisfies `P` (in the code:
`null_cells == tile_size * tile_size`). -/
def woIdx (P : α → Prop) [DecidablePred P] : List α → ℕ → List ℕ
  | [], _ => []
  | a :: t, i => if P a then i :: woIdx P t (i + 1) else woIdx P t (i + 1)

/-- The positions (submission order, counter starting at 0) whose null-cell
count equals `tile_size * tile_size`. -/
def tilesWoData (nulls : List ℕ) (ts : ℕ) : List ℕ :=
  woIdx (fun c => c = ts * ts) nulls 0

/-- `tiles_wo_data.reverse()` followed by `del geojson_dict["features"][num]`
for each collected position. -/
def removeTilesWoData (features : List α) (wo : List ℕ) : List α :=
  wo.reverse.foldl (fun acc i => acc.eraseIdx i) features

/-- The finally exported tile index: features paired with their null-cell
counts, pruned by the deletion loop. -/
def finalTindex (tiles : List (α × ℕ)) (ts : ℕ) : List (α × ℕ) :=
  removeTilesWoData tiles (tilesWoData (tiles.map Prod.snd) ts)

/-! ## Label value checking

`m.neural_network.preparetraining.py`, block `# check the train tiles for
wrong values in the label file`: every feature value of every training label
gpkg must lie in `allowed_vals`; the first offending value aborts the whole
run with `grass.fatal`, naming file and value. -/

/-- The parent label check; the error carries the offending file and value. -/
def checkLabelGpkgs : List (String × List ℤ) → List ℤ → Except (String × ℤ) Unit
  | [], _ => .ok ()
  | (name, vals) :: rest, allowed =>
    match vals.find? (fun v => !allowed.contains v) with
    | some v => .error (name, v)
    | none => checkLabelGpkgs rest allowed

/-! ## Label rasterization worker

`m.neural_network.preparetraining.worker.py`, `main`: after the fatal
difference check, `tile_empty` is decided by
`len(class_numbers) == 0 or set(class_numbers) == set((no_class_value))`;
an empty tile gets a warning and the uniform `r.mapcalc` fallback raster,
otherwise `v.to.rast` on the class column with nulls filled by
`no_class_value`. -/

/-- The label raster written by the worker. -/
inductive LabelRaster
  | uniform (v : String)
  | rasterized (nullFill : String)
  deriving Repr, DecidableEq

/-- `set(class_numbers).difference(set([*class_values, no_class_value]))`. -/
def workerDifference (class_numbers class_values : List String)
    (no_class_value : String) : Finset String :=
  class_numbers.toFinset \ (class_values.toFinset ∪ {no_class_value})

/-- `len(class_numbers) == 0 or set(class_numbers) == set((no_class_value))`.
Python's `set((no_class_value))` is the set of the characters of the string,
because `(x)` is not a tuple. -/
def tileEmpty (class_numbers : List String) (no_class_value : String) : Bool :=
  class_numbers.isEmpty ||
    decide (class_numbers.toFinset =
      (no_class_value.toList.map (fun c => String.mk [c])).toFinset)

/-- Value handling of the worker `main`: fatal on unexpected values, then
`tile_empty` selects the uniform fallback (with a warning) or the attribute
rasterization path.  Result: `(warning emitted, raster written)`. -/
def workerLabelMain (class_numbers class_values : List String)
    (no_class_value : String) : Except (Finset String) (Bool × LabelRaster) :=
  if workerDifference class_numbers class_values no_class_value = ∅ then
    if tileEmpty class_numbers no_class_value then
      .ok (true, .uniform no_class_value)
    else
      .ok (false, .rasterized no_class_value)
  else
    .error (workerDifference class_numbers class_values no_class_value)

/-- The intended notion of an empty tile: no feature carries a
class-of-interest value — the file is empty or all features carry
`no_class_value`. -/
def tileEmptySpec (class_numbers : List String) (no_class_value : String) : Bool :=
  class_numbers.isEmpty || class_numbers.all (· == no_class_value)

/-! ## Vectorize pipeline

`m.neural_network.postprocessing.vectorize.py`, `main`: the sequence of GRASS
commands, with `generalize_thres` defaulting to
`(rinfo["nsres"] + rinfo["ewres"]) / 2.0`. -/

/-- The GRASS commands run by `main` (the source function `restore_corners`
is kept as one command). -/
inductive VCmd
  | rToVect
  | vCleanRmarea (thr : ℚ)
  | vDbAddColumnInt
  | vDbUpdateFromFloat
  | vDbDropFloatColumn
  | vExtractDissolve
  | vGeneralizeChaiken (thr : ℚ)
  | vGeneralizeDouglas (thr : ℚ)
  | restoreCorners
  | gRename
  deriving Repr, DecidableEq

/-- `generalize_thres`: the supplied option or the resolution mean. -/
def generalizeThres (opt : Option ℚ) (nsres ewres : ℚ) : ℚ :=
  match opt with
  | none => (nsres + ewres) / 2
  | some t => t

/-- The command trace of `main` in source order: vectorize, remove small
areas, add/populate/drop columns converting the class attribute to INTEGER,
dissolve, optional chaiken smoothing plus corner restoration, the two Douglas
passes (the second at `generalize_thres * 1.5`), and the final corner
restoration (flag `c`) or rename. -/
def vectorizePipeline (smoothing keepCorners : Bool) (opt : Option ℚ)
    (nsres ewres rmthr : ℚ) : List VCmd :=
  [.rToVect, .vCleanRmarea rmthr, .vDbAddColumnInt, .vDbUpdateFromFloat,
    .vDbDropFloatColumn, .vExtractDissolve]
  ++ (if smoothing then
        [.vGeneralizeChaiken (generalizeThres opt nsres ewres), .restoreCorners]
      else [])
  ++ [.vGeneralizeDouglas (generalizeThres opt nsres ewres),
      .vGeneralizeDouglas (generalizeThres opt nsres ewres * 1.5)]
  ++ (if keepCorners then [.restoreCorners] else [.gRename])

/-- Claim-relevant stages of the pipeline. -/
inductive VStage
  | vectorize
  | rmarea
  | convertToInt
  | dissolve
  | douglas (thr : ℚ)
  deriving Repr, DecidableEq

/-- Stage of one command: the column population is the attribute conversion;
smoothing, restoration and renaming are not claim stages. -/
def stageTag : VCmd → Option VStage
  | .rToVect => some .vectorize
  | .vCleanRmarea _ => some .rmarea
  | .vDbUpdateFromFloat => some .convertToInt
  | .vExtractDissolve => some .dissolve
  | .vGeneralizeDouglas t => some (.douglas t)
  | _ => none

/-! ## Tile patching

`m.neural_network.postprocessing.patch.py` / `postprocessing_patch.py`,
`main`: import each tile, cut `edge_cut` cells from its edges (region
shrunk on all four sides, `r.mapcalc`), `r.patch` the cut tiles under their
combined region; with flag `b` (keep border tile edges) grow the region back
by `edge_cut` on all four sides, `r.buildvrt` the uncut imports and `r.patch`
the cut result over the mosaic.  `r.patch` (and the virtual mosaic read) take
the first non-null value in input order; cells are `Option ℤ` on the integer
cell grid. -/

/-- A tile raster: a rectangular extent (inclusive row/column ranges) with
per-cell data, `none` being a GRASS null cell. -/
structure GTile where
  rmin : ℤ
  rmax : ℤ
  cmin : ℤ
  cmax : ℤ
  val : ℤ → ℤ → Option ℤ

/-- Whether a cell lies in the tile's extent. -/
def GTile.contains (t : GTile) (r c : ℤ) : Bool :=
  decide (t.rmin ≤ r) && decide (r ≤ t.rmax) &&
    decide (t.cmin ≤ c) && decide (c ≤ t.cmax)

/-- Reading a tile: its data inside the extent, null outside. -/
def GTile.read (t : GTile) (r c : ℤ) : Option ℤ :=
  if t.contains r c then t.val r c else none

/-- `g.region n=n-edge s=s+edge e=e-edge w=w+edge` + `r.mapcalc cut = tile`:
the tile restricted to its core. -/
def GTile.cut (e : ℤ) (t : GTile) : GTile :=
  { t with rmin := t.rmin + e, rmax := t.rmax - e,
           cmin := t.cmin + e, cmax := t.cmax - e }

/-- A processing region window. -/
structure Window where
  rmin : ℤ
  rmax : ℤ
  cmin : ℤ
  cmax : ℤ

/-- Whether a cell lies in the window. -/
def Window.contains (w : Window) (r c : ℤ) : Bool :=
  decide (w.rmin ≤ r) && decide (r ≤ w.rmax) &&
    decide (w.cmin ≤ c) && decide (c ≤ w.cmax)

/-- `g.region n=n+edge s=s-edge e=e+edge w=w-edge`. -/
def Window.expand (w : Window) (e : ℤ) : Window :=
  { rmin := w.rmin - e, rmax := w.rmax + e,
    cmin := w.cmin - e, cmax := w.cmax + e }

/-- `g.region raster=rast_list`: the bounding window of a tile list. -/
def windowOfTiles : List GTile → Window
  | [] => { rmin := 0, rmax := -1, cmin := 0, cmax := -1 }
  | [t] => { rmin := t.rmin, rmax := t.rmax, cmin := t.cmin, cmax := t.cmax }
  | t :: rest =>
    let w := windowOfTiles rest
    { rmin := min t.rmin w.rmin, rmax := max t.rmax w.rmax,
      cmin := min t.cmin w.cmin, cmax := max t.cmax w.cmax }

/-- `r.patch` (also the read behaviour of the `r.buildvrt` mosaic): the first
non-null value among the inputs, in order. -/
def rPatch (ts : List GTile) (r c : ℤ) : Option ℤ :=
  ts.findSome? (fun t => t.read r c)

/-- The patch stage of `main`: cut tiles patched under their combined window;
with `keepBorder` the window is re-expanded by `edge_cut` and the cut patch
is patched over the virtual mosaic of the uncut tiles. -/
def patchTiles (e : ℤ) (tiles : List GTile) (keepBorder : Bool)
    (r c : ℤ) : Option ℤ :=
  if keepBorder then
    if ((windowOfTiles (tiles.map (GTile.cut e))).expand e).contains r c then
      (if (windowOfTiles (tiles.map (GTile.cut e))).contains r c then
          rPatch (tiles.map (GTile.cut e)) r c
        else none).or (rPatch tiles r c)
    else none
  else
    if (windowOfTiles (tiles.map (GTile.cut e))).contains r c then
      rPatch (tiles.map (GTile.cut e)) r c
    else none

/-- Tile A of the counterexample: 4×4 extent, value 7 everywhere except a
null data cell at (1,2), which lies inside its trimmed core for edge cut 1. -/
def tileA : GTile :=
  { rmin := 0, rmax := 3, cmin := 0, cmax := 3,
    val := fun r c => if r = 1 ∧ c = 2 then none else some 7 }

/-- Tile B of the counterexample: horizontally adjacent, overlapping columns
2..5, value 5 everywhere. -/
def tileB : GTile :=
  { rmin := 0, rmax := 3, cmin := 2, cmax := 5,
    val := fun _ _ => some 5 }

/-! ## nDSM normalization

`m.neural_network.preparedata.worker_export.py`, `main`:
`ex_cut = "ndsm_cut = if( ndsm >= 30, 30, if( ndsm < 0, 0, ndsm ) )"` and
`ex_scale = "ndsm_scaled = int((ndsm_cut / 30. * 254.) + 1)"`; `int()` in
`r.mapcalc` truncates towards zero. -/

/-- `int()` of r.mapcalc: truncation towards zero. -/
def mapcalcInt (q : ℚ) : ℤ := if 0 ≤ q then ⌊q⌋ else -⌊-q⌋

/-- `ndsm_cut`: the height clamped to [0, 30]. -/
def ndsm_cut (v : ℚ) : ℚ := if v ≥ 30 then 30 else if v < 0 then 0 else v

/-- `ndsm_scaled`: the exported `ndsm_1_255` byte value. -/
def ndsm_scaled (v : ℚ) : ℤ := mapcalcInt (ndsm_cut v / 30 * 254 + 1)

/-! ## Output-directory lifecycle

`m.neural_network.preparetraining.py`, `main`:
`os.makedirs(output, exist_ok=False)` guarded by `except FileExistsError:
grass.fatal(...)`; then `rm_dirs.append(output)` registers the freshly
created directory for the exit-time cleanup, and `rm_dirs.remove(output)`
runs only after tile collection, the label value check, vrt building, label
rasterization and mapset verification succeeded (`# only keep the output if
everything worked`). -/

/-- Abstract outcome of each fallible stage of `main`, in source order. -/
structure PrepEnv where
  outputExists : Bool
  tilesOk : Bool
  labelValuesOk : Bool
  vrtOk : Bool
  rasterizeOk : Bool
  mapsetOk : Bool

/-- `main` of preparetraining: the run result together with the `rm_dirs`
registration state of the output directory at process exit (the per-tile
temporary mapset directories always stay registered and are kept out of the
model). -/
def preparetrainingMain (e : PrepEnv) (output : String) :
    Except String Unit × List String :=
  if e.outputExists then (.error "Directory exists already.", [])
  else if !e.tilesOk then (.error "File expected but no found.", [output])
  else if !e.labelValuesOk then
    (.error "unexpected value in label file", [output])
  else if !e.vrtOk then (.error "File is empty.", [output])
  else if !e.rasterizeOk then (.error "worker failed", [output])
  else if !e.mapsetOk then (.error "mapset verification failed", [output])
  else (.ok (), [output].erase output)

/-! ## Properties -/

/-- `pyRound` of `q + 1/2` equals the ceiling of `q`, except that an exactly
integral `q` with odd value rounds up to `q + 1` (round half to even applied
to the tie `q + 1/2`). -/
theorem pyRound_add_half (q : ℚ) :
    pyRound (q + 1/2) =
      if Int.fract q = 0 then (if ⌊q⌋ % 2 = 0 then ⌊q⌋ else ⌊q⌋ + 1)
      else ⌈q⌉ := by
  have hq : (⌊q⌋ : ℚ) + Int.fract q = q := Int.floor_add_fract q
  have hg0 : 0 ≤ Int.fract q := Int.fract_nonneg q
  have hg1 : Int.fract q < 1 := Int.fract_lt_one q
  by_cases h0 : Int.fract q = 0
  · -- q is an integer
    have hqq : (⌊q⌋ : ℚ) = q := by rw [h0] at hq; linarith
    have hfloor : ⌊q + 1/2⌋ = ⌊q⌋ := by
      rw [Int.floor_eq_iff]
      constructor
      · linarith
      · linarith
    simp only [pyRound, hfloor]
    have hr1 : ¬(q + 1/2 - (⌊q⌋ : ℚ) < 1/2) := by
      rw [hqq]; simp
    have hr2 : ¬(1/2 < q + 1/2 - (⌊q⌋ : ℚ)) := by
      rw [hqq]; simp
    rw [if_neg hr1, if_neg hr2, if_pos h0]
  · -- q is not an integer: 0 < fract q < 1
    have hgpos : 0 < Int.fract q := lt_of_le_of_ne hg0 (Ne.symm h0)
    have hceil : ⌈q⌉ = ⌊q⌋ + 1 := by
      rw [Int.ceil_eq_iff]
      constructor
      · push_cast; linarith
      · push_cast; linarith
    rw [if_neg h0, hceil]
    rcases lt_trichotomy (Int.fract q) (1/2) with hg | hg | hg
    · -- fract q < 1/2
      have hfloor : ⌊q + 1/2⌋ = ⌊q⌋ := by
        rw [Int.floor_eq_iff]
        constructor
        · linarith
        · linarith
      simp only [pyRound, hfloor]
      have hr1 : ¬(q + 1/2 - (⌊q⌋ : ℚ) < 1/2) := by push_neg; linarith
      have hr2 : 1/2 < q + 1/2 - (⌊q⌋ : ℚ) := by linarith
      rw [if_neg hr1, if_pos hr2]
    · -- fract q = 1/2
      have hfloor : ⌊q + 1/2⌋ = ⌊q⌋ + 1 := by
        rw [Int.floor_eq_iff]
        constructor
        · push_cast; linarith
        · push_cast; linarith
      simp only [pyRound, hfloor]
      have hr1 : q + 1/2 - ((⌊q⌋ + 1 : ℤ) : ℚ) < 1/2 := by push_cast; linarith
      rw [if_pos hr1]
    · -- fract q > 1/2
      have hfloor : ⌊q + 1/2⌋ = ⌊q⌋ + 1 := by
        rw [Int.floor_eq_iff]
        constructor
        · push_cast; linarith
        · push_cast; linarith
      simp only [pyRound, hfloor]
      have hr1 : q + 1/2 - ((⌊q⌋ + 1 : ℤ) : ℚ) < 1/2 := by push_cast; linarith
      rw [if_pos hr1]

/-- `pyRound` of an argument at most `1/2` is at most zero. -/
theorem pyRound_nonpos (x : ℚ) (hx : x ≤ 1/2) : pyRound x ≤ 0 := by
  have hfl : (⌊x⌋ : ℚ) ≤ x := Int.floor_le x
  have hf : ⌊x⌋ ≤ 0 := by
    have h := Int.floor_le_floor hx
    have : ⌊(1/2 : ℚ)⌋ = 0 := by norm_num
    omega
  simp only [pyRound]
  by_cases h1 : x - (⌊x⌋ : ℚ) < 1/2
  · rw [if_pos h1]; exact hf
  · rw [if_neg h1]
    by_cases h2 : 1/2 < x - (⌊x⌋ : ℚ)
    · rw [if_pos h2]
      have hneg : (⌊x⌋ : ℚ) < 0 := by linarith
      have : ⌊x⌋ < 0 := by exact_mod_cast hneg
      omega
    · rw [if_neg h2]
      by_cases h3 : ⌊x⌋ % 2 = 0
      · rw [if_pos h3]; exact hf
      · rw [if_neg h3]
        omega

/-- `pyRound` of a nonnegative argument is nonnegative. -/
theorem pyRound_nonneg (x : ℚ) (hx : 0 ≤ x) : 0 ≤ pyRound x := by
  have hf : 0 ≤ ⌊x⌋ := Int.floor_nonneg.mpr hx
  simp only [pyRound]
  by_cases h1 : x - (⌊x⌋ : ℚ) < 1/2
  · rw [if_pos h1]; exact hf
  · rw [if_neg h1]
    by_cases h2 : 1/2 < x - (⌊x⌋ : ℚ)
    · rw [if_pos h2]; omega
    · rw [if_neg h2]
      by_cases h3 : ⌊x⌋ % 2 = 0
      · rw [if_pos h3]; exact hf
      · rw [if_neg h3]; omega

theorem tilesInRow_length (n : ℕ) (w no s st : ℚ) :
    (tilesInRow n w no s st).length = n := by
  induction n generalizing w with
  | zero => rfl
  | succ k ih => simp [tilesInRow, ih]

theorem tileRows_length (r c : ℕ) (no w0 s st : ℚ) :
    (tileRows r c no w0 s st).length = r * c := by
  induction r generalizing no with
  | zero => simp [tileRows]
  | succ k ih =>
    simp only [tileRows, List.length_append, tilesInRow_length, ih]
    ring

/-- C1 (amended): for `overlap < tile_size` the per-dimension tile count is
`ceil(cells / (tile_size - overlap))` — except when that quotient is an exact
odd integer, where Python's round-half-to-even applied to `quotient + 0.5`
yields one more than the ceiling. -/
theorem num_tiles_dim_eq_ceil (cells ts ov : ℕ) (_h : ov < ts) :
    num_tiles_dim cells ts ov =
      if Int.fract ((cells : ℚ) / ((ts : ℚ) - (ov : ℚ))) = 0
          ∧ ⌊(cells : ℚ) / ((ts : ℚ) - (ov : ℚ))⌋ % 2 = 1 then
        ⌈(cells : ℚ) / ((ts : ℚ) - (ov : ℚ))⌉ + 1
      else ⌈(cells : ℚ) / ((ts : ℚ) - (ov : ℚ))⌉ := by
  have key := pyRound_add_half ((cells : ℚ) / ((ts : ℚ) - (ov : ℚ)))
  rw [num_tiles_dim, key]
  set q := (cells : ℚ) / ((ts : ℚ) - (ov : ℚ)) with hqdef
  by_cases h0 : Int.fract q = 0
  · have hqfloor : q = (⌊q⌋ : ℚ) := by
      have hsum := Int.floor_add_fract q
      rw [h0] at hsum
      linarith
    have hceil : ⌈q⌉ = ⌊q⌋ := by
      conv_lhs => rw [hqfloor]
      exact Int.ceil_intCast _
    rcases Int.emod_two_eq_zero_or_one ⌊q⌋ with he | he
    · simp [h0, he, hceil]
    · simp [h0, he, hceil]
  · simp [h0]

/-- C1 witness: at 3 cells per dimension, tile_size 2, overlap 1 the quotient
is the odd integer 3 and the count is `ceil + 1 = 4`. -/
theorem num_tiles_dim_eq_ceil_witness :
    (1 < 2) ∧ num_tiles_dim 3 2 1 = ⌈(3 : ℚ) / ((2 : ℚ) - (1 : ℚ))⌉ + 1 := by
  refine ⟨by omega, ?_⟩
  rw [num_tiles_dim_eq_ceil 3 2 1 (by omega)]
  norm_num

/-- C1 (counterexample): a 3×3-cell scene, tile_size 2, overlap 1: the
quotient per dimension is the exact odd integer 3, the code builds a 4×4 = 16
tile grid, while `ceil(3/1) * ceil(3/1) = 9`. -/
theorem computeGrid_not_ceil_counterexample :
    (computeGrid 3 3 2 1 0 0 1).map List.length = .ok 16 ∧
      ⌈(3 : ℚ) / ((2 : ℚ) - (1 : ℚ))⌉ * ⌈(3 : ℚ) / ((2 : ℚ) - (1 : ℚ))⌉ = 9 ∧
      (16 : ℤ) ≠ 9 := by
  have hdim : num_tiles_dim 3 2 1 = 4 := by
    rw [num_tiles_dim, pyRound_add_half]
    norm_num
  refine ⟨?_, by norm_num, by norm_num⟩
  rw [computeGrid, if_neg (by omega), Except.map, hdim]
  simp [tileRows_length]

/-- C2 (counterexample): with tile_overlap 3 greater than tile_size 2 the grid
stage neither raises a configuration error nor any other error: it computes
the negative tile count `round(3/(-1) + 0.5) = -2` per dimension and returns
an empty grid. -/
theorem computeGrid_no_overlap_check_counterexample :
    computeGrid 3 3 2 3 0 0 1 = .ok [] ∧ num_tiles_dim 3 2 3 = -2 := by
  have hdim : num_tiles_dim 3 2 3 = -2 := by
    rw [num_tiles_dim, pyRound_add_half]
    norm_num
  refine ⟨?_, hdim⟩
  rw [computeGrid, if_neg (by omega), hdim]
  rfl

/-- C2 (amended): the modules perform no overlap validation at all.  When
`tile_overlap > tile_size` the grid stage succeeds with an empty tile list
(the computed tile count is non-positive and `range` of it is empty); only
the exact equality `tile_overlap == tile_size` stops the run, with Python's
built-in `ZeroDivisionError` rather than a configuration check. -/
theorem computeGrid_overlap_behaviour (rows cols ts ov : ℕ) (regN regW res : ℚ) :
    (ts < ov → computeGrid rows cols ts ov regN regW res = .ok []) ∧
      (ts = ov → computeGrid rows cols ts ov regN regW res =
        .error "ZeroDivisionError: division by zero") := by
  constructor
  · intro h
    rw [computeGrid, if_neg (by omega)]
    have hden : (ts : ℚ) - (ov : ℚ) < 0 := by
      have hc : (ts : ℚ) < (ov : ℚ) := by exact_mod_cast h
      linarith
    have hdiv : (rows : ℚ) / ((ts : ℚ) - (ov : ℚ)) ≤ 0 :=
      div_nonpos_iff.2 (Or.inl ⟨by positivity, le_of_lt hden⟩)
    have hle : num_tiles_dim rows ts ov ≤ 0 := by
      rw [num_tiles_dim]
      exact pyRound_nonpos _ (by linarith)
    have hzero : (num_tiles_dim rows ts ov).toNat = 0 := Int.toNat_of_nonpos hle
    rw [hzero]
    rfl
  · intro h
    rw [computeGrid, if_pos h]

/-- C2 witness: tile_size 2, overlap 2 raises the division error; tile_size 1,
overlap 2 silently yields the empty grid. -/
theorem computeGrid_overlap_behaviour_witness :
    computeGrid 4 4 2 2 0 0 1 = .error "ZeroDivisionError: division by zero" ∧
      computeGrid 4 4 1 2 0 0 1 = .ok [] :=
  ⟨(computeGrid_overlap_behaviour 4 4 2 2 0 0 1).2 rfl,
    (computeGrid_overlap_behaviour 4 4 1 2 0 0 1).1 (by omega)⟩

/-- C3 (amended): in `preparedata_part1` the number of training tiles is
`min(round(p/100 * num_tiles_total), eligible_count)` — rounding against the
total grid tile count — and the warning with the recomputed effective
percentage is emitted exactly when the eligible count falls short of the
rounded target.  (The older `preparedata` module rounds against the eligible
count instead, with no clamping and no warning; see the counterexample.) -/
theorem split_part1_count (p total : ℕ) (eligible shuffled : List ℕ)
    (hperm : shuffled.Perm eligible) :
    ((split_part1 p total shuffled).1.length : ℤ)
        = min (pyRound ((p : ℚ) / 100 * (total : ℚ))) (eligible.length : ℤ) ∧
      ((split_part1 p total shuffled).2.isSome ↔
        (eligible.length : ℤ) < pyRound ((p : ℚ) / 100 * (total : ℚ))) ∧
      ((eligible.length : ℤ) < pyRound ((p : ℚ) / 100 * (total : ℚ)) →
        (split_part1 p total shuffled).2 =
          some (pyRound ((eligible.length : ℚ) / (total : ℚ) * 100))) := by
  have hlen : shuffled.length = eligible.length := hperm.length_eq
  have hk0 : 0 ≤ pyRound ((p : ℚ) / 100 * (total : ℚ)) :=
    pyRound_nonneg _ (by positivity)
  rw [split_part1]
  by_cases hc : (shuffled.length : ℤ) < pyRound ((p : ℚ) / 100 * (total : ℚ))
  · rw [if_pos hc]
    rw [hlen] at hc
    refine ⟨?_, by simp [hc], ?_⟩
    · simp only [List.take_length]
      omega
    · intro _
      simp only [Option.some.injEq]
      rw [hlen]
  · rw [if_neg hc]
    rw [hlen] at hc
    refine ⟨?_, by simp [hc], ?_⟩
    · simp only [List.length_take, hlen]
      push_cast [Int.toNat_of_nonneg hk0]
      omega
    · intro hcon
      exact absurd hcon hc

/-- C3 witness: 4 grid tiles, eligible tiles `[1, 2]` shuffled to `[2, 1]`,
p = 50: two training tiles are selected and no warning is emitted. -/
theorem split_part1_count_witness :
    ((split_part1 50 4 [2, 1]).1.length : ℤ)
        = min (pyRound ((50 : ℚ) / 100 * (4 : ℚ))) (([1, 2] : List ℕ).length : ℤ) ∧
      ((split_part1 50 4 [2, 1]).2.isSome ↔
        ((([1, 2] : List ℕ).length : ℤ) < pyRound ((50 : ℚ) / 100 * (4 : ℚ)))) ∧
      (((([1, 2] : List ℕ).length : ℤ) < pyRound ((50 : ℚ) / 100 * (4 : ℚ))) →
        (split_part1 50 4 [2, 1]).2 =
          some (pyRound ((([1, 2] : List ℕ).length : ℚ) / (4 : ℚ) * 100))) :=
  split_part1_count 50 4 [1, 2] [2, 1] (by decide)

/-- C3 (counterexample): a grid of 4 tiles of which 2 are eligible, p = 50.
The claim predicts `min(round(0.5 * 4), 2) = 2` training tiles, but
`preparedata` selects `round(0.5 * 2) = 1`. -/
theorem split_prep_counterexample :
    (split_prep 50 [7, 9]).length = 1 ∧
      min (pyRound ((50 : ℚ) / 100 * (4 : ℚ))) ((([7, 9] : List ℕ).length : ℤ)) = 2 ∧
      (1 : ℤ) ≠ 2 := by
  have h1 : pyRound ((50 : ℚ) / 100 * ((2 : ℕ) : ℚ)) = 1 := by
    norm_num [pyRound]
  have h2 : pyRound ((50 : ℚ) / 100 * (4 : ℚ)) = 2 := by
    norm_num [pyRound]
  refine ⟨?_, by rw [h2]; simp, by norm_num⟩
  simp only [split_prep, List.length_take, List.length_cons, List.length_nil]
  norm_num [pyRound]

theorem woIdx_succ (P : α → Prop) [DecidablePred P] (t : List α) (i : ℕ) :
    woIdx P t (i + 1) = (woIdx P t i).map (· + 1) := by
  induction t generalizing i with
  | nil => rfl
  | cons a t ih =>
    by_cases hp : P a
    · simp [woIdx, hp, ih]
    · simp [woIdx, hp, ih]

theorem woIdx_map (P : β → Prop) [DecidablePred P] (f : α → β) (l : List α)
    (i : ℕ) : woIdx P (l.map f) i = woIdx (fun a => P (f a)) l i := by
  induction l generalizing i with
  | nil => rfl
  | cons a t ih =>
    by_cases hp : P (f a)
    · simp [woIdx, hp, ih]
    · simp [woIdx, hp, ih]

theorem foldl_eraseIdx_succ (is : List ℕ) (a : α) (t : List α) :
    (is.map (· + 1)).foldl (fun acc i => acc.eraseIdx i) (a :: t) =
      a :: is.foldl (fun acc i => acc.eraseIdx i) t := by
  induction is generalizing t with
  | nil => rfl
  | cons i is ih => simp [List.foldl_cons, List.eraseIdx_cons_succ, ih]

theorem foldl_eraseIdx_filter (P : α → Prop) [DecidablePred P] (l : List α) :
    (woIdx P l 0).reverse.foldl (fun acc i => acc.eraseIdx i) l
      = l.filter (fun a => !decide (P a)) := by
  induction l with
  | nil => rfl
  | cons a t ih =>
    by_cases hp : P a
    · rw [woIdx, if_pos hp, woIdx_succ, List.reverse_cons, ← List.map_reverse]
      rw [List.foldl_append, foldl_eraseIdx_succ, ih]
      simp [hp]
    · rw [woIdx, if_neg hp, woIdx_succ, ← List.map_reverse]
      rw [foldl_eraseIdx_succ, ih]
      simp [hp]

/-- C4: the exported tile index contains exactly the grid tiles whose
null-cell count differs from `tile_size * tile_size`; every 100%-null tile is
deleted by the reversed deletion loop and no tile with data is removed. -/
theorem finalTindex_eq_filter (tiles : List (α × ℕ)) (ts : ℕ) :
    finalTindex tiles ts = tiles.filter (fun t => !decide (t.2 = ts * ts)) := by
  rw [finalTindex, tilesWoData, removeTilesWoData, woIdx_map]
  exact foldl_eraseIdx_filter _ tiles

/-- C5 (amended): on an unexpected attribute value the label-preparation
stage aborts fatally (`grass.fatal`, naming file, value and the allowed
values); it succeeds exactly when every feature value of every label file
lies in the allowed set.  No flagging, substitution or per-tile exclusion
happens for unexpected values. -/
theorem checkLabelGpkgs_ok_iff (gpkgs : List (String × List ℤ))
    (allowed : List ℤ) :
    checkLabelGpkgs gpkgs allowed = .ok () ↔
      ∀ g ∈ gpkgs, ∀ v ∈ g.2, v ∈ allowed := by
  induction gpkgs with
  | nil => simp [checkLabelGpkgs]
  | cons g rest ih =>
    obtain ⟨name, vals⟩ := g
    cases hf : vals.find? (fun v => !allowed.contains v) with
    | some v =>
      simp only [checkLabelGpkgs, hf]
      constructor
      · intro h
        exact Except.noConfusion h
      · intro h
        have hv := List.find?_some hf
        have hmem := List.mem_of_find?_eq_some hf
        have hgood := h (name, vals) (List.mem_cons_self _ _) v hmem
        simp at hv
        exact absurd hgood hv
    | none =>
      simp only [checkLabelGpkgs, hf]
      rw [ih]
      constructor
      · intro h g hg v hv
        rcases List.mem_cons.mp hg with hgeq | hg2
        · subst hgeq
          have hnone := List.find?_eq_none.mp hf v hv
          simpa using hnone
        · exact h g hg2 v hv
      · intro h g hg v hv
        exact h g (List.mem_cons_of_mem _ hg) v hv

/-- C5 (counterexample): one label file containing the value 3 with allowed
values 2 (class) and 1 (no-class): the stage returns the fatal error instead
of flagging, substituting or excluding the tile. -/
theorem checkLabelGpkgs_counterexample :
    checkLabelGpkgs [("tile_0_0", [3])] [2, 1] = .error ("tile_0_0", 3) := by
  rfl

/-- C6 (code bug): with `no_class_value = "10"`, class of interest `"2"` and
all features `"10"`, the allowed-value check passes and the tile is
all-no-class, yet the worker takes the attribute-rasterization path with no
warning: `set((no_class_value))` in the source is the character set
containing "1" and "0", not the singleton containing "10". -/
theorem workerLabelMain_multichar_bug :
    workerLabelMain ["10", "10"] ["2"] "10" = .ok (false, .rasterized "10") ∧
      tileEmptySpec ["10", "10"] "10" = true ∧
      (false : Bool) ≠ true := by
  refine ⟨?_, by decide, by decide⟩
  rfl

/-- C7: for every flag combination and threshold option the pipeline runs its
stages in the fixed order vectorize → small-area removal → integer conversion
→ dissolve → Douglas generalization at `t` → Douglas at `1.5 * t` (exactly
two Douglas passes), and the default threshold is the mean of the north-south
and east-west resolutions. -/
theorem vectorizePipeline_stage_order (smoothing keepCorners : Bool)
    (opt : Option ℚ) (nsres ewres rmthr : ℚ) :
    (vectorizePipeline smoothing keepCorners opt nsres ewres rmthr).filterMap
          stageTag =
        [.vectorize, .rmarea, .convertToInt, .dissolve,
          .douglas (generalizeThres opt nsres ewres),
          .douglas (generalizeThres opt nsres ewres * 1.5)] ∧
      generalizeThres none nsres ewres = (nsres + ewres) / 2 := by
  refine ⟨?_, rfl⟩
  cases smoothing <;> cases keepCorners <;>
    simp [vectorizePipeline, stageTag]

theorem windowOfTiles_contains (ts : List GTile) (t : GTile) (ht : t ∈ ts)
    (r c : ℤ) (h : t.contains r c = true) :
    (windowOfTiles ts).contains r c = true := by
  induction ts with
  | nil => cases ht
  | cons a rest ih =>
    cases rest with
    | nil =>
      rcases List.mem_cons.mp ht with hta | h2
      · subst hta
        simpa [windowOfTiles, Window.contains, GTile.contains] using h
      · cases h2
    | cons b rest2 =>
      rcases List.mem_cons.mp ht with hta | h2
      · subst hta
        simp only [GTile.contains, Bool.and_eq_true, decide_eq_true_eq] at h
        simp only [windowOfTiles, Window.contains, Bool.and_eq_true,
          decide_eq_true_eq]
        omega
      · have hrest := ih h2
        simp only [Window.contains, Bool.and_eq_true, decide_eq_true_eq] at hrest
        simp only [windowOfTiles, Window.contains, Bool.and_eq_true,
          decide_eq_true_eq]
        omega

theorem rPatch_some_mem (ts : List GTile) (r c : ℤ) (v : ℤ)
    (h : rPatch ts r c = some v) : ∃ t ∈ ts, t.contains r c = true := by
  induction ts with
  | nil => cases h
  | cons a rest ih =>
    rw [rPatch, List.findSome?_cons] at h
    cases ha : a.read r c with
    | some w =>
      have hc : a.contains r c = true := by
        by_contra hcon
        simp only [Bool.not_eq_true] at hcon
        simp [GTile.read, hcon] at ha
      exact ⟨a, List.mem_cons_self _ _, hc⟩
    | none =>
      rw [ha] at h
      obtain ⟨t, ht, hc⟩ := ih h
      exact ⟨t, List.mem_cons_of_mem _ ht, hc⟩

/-- C8 (amended): with border-edge preservation the trimmed merge takes
precedence wherever it has a (non-null) value; wherever the trimmed merge is
null — cells outside the trimmed union, but also null cells inside trimmed
cores (e.g. data nulls or areas removed by the small-area cleaning, whose
uncut originals feed the mosaic) — the output takes the value of the
untrimmed virtual mosaic, within the merge window expanded by `edge_cut`. -/
theorem patchTiles_keepBorder (e : ℤ) (tiles : List GTile) (r c : ℤ)
    (hin : ((windowOfTiles (tiles.map (GTile.cut e))).expand e).contains r c
      = true) :
    patchTiles e tiles true r c =
      (rPatch (tiles.map (GTile.cut e)) r c).or (rPatch tiles r c) := by
  rw [patchTiles, if_pos rfl, if_pos hin]
  by_cases hw : (windowOfTiles (tiles.map (GTile.cut e))).contains r c = true
  · rw [if_pos hw]
  · rw [if_neg hw]
    cases hp : rPatch (tiles.map (GTile.cut e)) r c with
    | none => rfl
    | some v =>
      exfalso
      obtain ⟨t, ht, hc⟩ := rPatch_some_mem _ _ _ _ hp
      exact hw (windowOfTiles_contains _ t ht r c hc)

/-- C8 (counterexample): cell (1,2) lies inside tile A's trimmed core, where
the trimmed merge is null; tile B's untrimmed extent covers it while B's
trimmed core does not.  The border-preserving patch outputs B's untrimmed
value 5 there — a cell inside the trimmed union receives a value from the
untrimmed mosaic and does not keep its trimmed (null) value. -/
theorem patchTiles_core_null_counterexample :
    patchTiles 1 [tileA, tileB] true 1 2 = some 5 ∧
      (GTile.cut 1 tileA).contains 1 2 = true ∧
      rPatch ([tileA, tileB].map (GTile.cut 1)) 1 2 = none := by
  refine ⟨by decide, by decide, by decide⟩

/-- C8 witness: at cell (2,3) of the two-tile scene the amended description
applies (the cell lies in the expanded merge window). -/
theorem patchTiles_keepBorder_witness :
    (((windowOfTiles ([tileA, tileB].map (GTile.cut 1))).expand 1).contains 2 3
        = true) ∧
      patchTiles 1 [tileA, tileB] true 2 3 =
        (rPatch ([tileA, tileB].map (GTile.cut 1)) 2 3).or
          (rPatch [tileA, tileB] 2 3) :=
  ⟨by decide, patchTiles_keepBorder 1 [tileA, tileB] 2 3 (by decide)⟩

/-- C9: every exported `ndsm_1_255` cell value lies in the integer range
[1, 255]; every height ≤ 0 maps to 1 and every height ≥ 30 maps to 255. -/
theorem ndsm_scaled_range (v : ℚ) :
    1 ≤ ndsm_scaled v ∧ ndsm_scaled v ≤ 255 ∧
      (v ≤ 0 → ndsm_scaled v = 1) ∧ (30 ≤ v → ndsm_scaled v = 255) := by
  have hcut0 : 0 ≤ ndsm_cut v := by
    rw [ndsm_cut]
    by_cases h30 : v ≥ 30
    · rw [if_pos h30]; norm_num
    · rw [if_neg h30]
      by_cases h0 : v < 0
      · rw [if_pos h0]
      · rw [if_neg h0]; linarith
  have hcut30 : ndsm_cut v ≤ 30 := by
    rw [ndsm_cut]
    by_cases h30 : v ≥ 30
    · rw [if_pos h30]
    · rw [if_neg h30]
      by_cases h0 : v < 0
      · rw [if_pos h0]; norm_num
      · rw [if_neg h0]; linarith
  have h1 : (1 : ℚ) ≤ ndsm_cut v / 30 * 254 + 1 := by
    have hnn : 0 ≤ ndsm_cut v / 30 * 254 := by positivity
    linarith
  have h255 : ndsm_cut v / 30 * 254 + 1 ≤ 255 := by
    have hb : ndsm_cut v / 30 * 254 ≤ 254 := by linarith
    linarith
  have hm : ndsm_scaled v = ⌊ndsm_cut v / 30 * 254 + 1⌋ := by
    rw [ndsm_scaled, mapcalcInt, if_pos (by linarith)]
  refine ⟨?_, ?_, ?_, ?_⟩
  · rw [hm]
    exact Int.le_floor.mpr (by exact_mod_cast h1)
  · rw [hm]
    have hfle := Int.floor_le_floor h255
    simpa using hfle
  · intro hv
    have hcut : ndsm_cut v = 0 := by
      rw [ndsm_cut, if_neg (by linarith)]
      by_cases h0 : v < 0
      · rw [if_pos h0]
      · rw [if_neg h0]; linarith
    rw [ndsm_scaled, hcut]
    norm_num [mapcalcInt]
  · intro hv
    have hcut : ndsm_cut v = 30 := by
      rw [ndsm_cut, if_pos (by linarith)]
    rw [ndsm_scaled, hcut]
    norm_num [mapcalcInt]

/-- C9 witness: height -2 maps to 1 and height 31 maps to 255. -/
theorem ndsm_scaled_range_witness :
    ndsm_scaled (-2) = 1 ∧ ndsm_scaled 31 = 255 :=
  ⟨(ndsm_scaled_range (-2)).2.2.1 (by norm_num),
    (ndsm_scaled_range 31).2.2.2 (by norm_num)⟩

/-- C10: preparetraining aborts immediately when the output directory already
exists (without registering the pre-existing directory for deletion);
otherwise the fresh directory stays registered for exit-time deletion
through every stage and is deregistered exactly on full success, so the
output tree survives the run if and only if everything worked. -/
theorem preparetrainingMain_cleanup (e : PrepEnv) (output : String) :
    (e.outputExists = true →
      (preparetrainingMain e output).1 = .error "Directory exists already." ∧
        (preparetrainingMain e output).2 = []) ∧
      (e.outputExists = false →
        (output ∈ (preparetrainingMain e output).2 ↔
          (preparetrainingMain e output).1 ≠ .ok ())) := by
  obtain ⟨oe, t, l, vr, ra, m⟩ := e
  constructor
  · intro h
    subst h
    exact ⟨rfl, rfl⟩
  · intro h
    subst h
    cases t <;> cases l <;> cases vr <;> cases ra <;> cases m <;>
      simp [preparetrainingMain]

/-- C10 witness: with a fresh output directory and all stages succeeding, the
output is not deleted at exit; the registration equivalence holds at this
concrete run. -/
theorem preparetrainingMain_cleanup_witness :
    ((⟨false, true, true, true, true, true⟩ : PrepEnv).outputExists = false) ∧
      ("out" ∈ (preparetrainingMain ⟨false, true, true, true, true, true⟩ "out").2 ↔
        (preparetrainingMain ⟨false, true, true, true, true, true⟩ "out").1 ≠ .ok ()) :=
  ⟨rfl,
    (preparetrainingMain_cleanup ⟨false, true, true, true, true, true⟩ "out").2 rfl⟩

/-- C5 witness: the amended equivalence at a concrete one-file input whose
values all lie in the allowed set. -/
theorem checkLabelGpkgs_ok_iff_witness :
    checkLabelGpkgs [("tile_a", [2, 1])] [2, 1] = .ok () ↔
      ∀ g ∈ [("tile_a", ([2, 1] : List ℤ))], ∀ v ∈ g.2, v ∈ ([2, 1] : List ℤ) :=
  checkLabelGpkgs_ok_iff [("tile_a", [2, 1])] [2, 1]

end MNN
